import Mathlib

/-!
Verification of the test-orchestration engine of the `winit-next` repository.

The development shallowly embeds the Rust sources it reasons about:

* `winit-test/src/lib.rs` — the `TestEvent` vocabulary, the `TestHarness`
  (`group`, `test`, `run_tests`) and the frame decoder `run_over_stream`;
* `winit-test/src/reporter/writer.rs` — the length-prefixed `StreamReporter`;
* `winit-test/src/reporter/console.rs` — the `ConsoleReporter`;
* `keter-test-runner/src/runner/environment/choose.rs` — the environment
  cache (`choose`, `cleanup`);
* `winit-test-runner/src/runner/environment/android.rs` — the ADB connect
  retry loop of `setup_android_emulator`;
* `keter-test-runner/src/runner/command.rs` — the `run` command driver
  (timeout race and the stdout/stderr line-draining loops).

Rust `String` values are modelled as `List Char` (a Rust `char` and a Lean
`Char` are both exactly the unicode scalar values), byte buffers as
`List Nat` with every element below 256, `usize`/`u64` counters as `Nat`.
-/

namespace WinitNext

/-! ## Test events (`winit-test/src/lib.rs`, `TestEvent` / `TestResult` / `TestStatus`) -/

/-- Status of a single test, mirroring `enum TestStatus`. -/
inductive TestStatus
  | Success
  | Failed
  | Ignored
deriving DecidableEq

/-- Result of a single test, mirroring `struct TestResult`. -/
structure TestResult where
  name : List Char
  status : TestStatus
  failure : List Char
deriving DecidableEq

/-- A test lifecycle event, mirroring `enum TestEvent`. -/
inductive TestEvent
  | End (count : Nat)
  | BeginGroup (name : List Char) (count : Nat)
  | EndGroup (name : List Char)
  | Result (result : TestResult)
deriving DecidableEq

/-! ## The harness (`winit-test/src/lib.rs`, `TestHarness` and `run_tests`)

`TestHarness` holds a reporter and an atomic test counter; `group` emits
`BeginGroup`, runs its body, then emits `EndGroup`; `test` bumps the counter,
runs the body under `catch_unwind` and emits exactly one `Result` event.
We model the harness state by the list of events given to the reporter so
far together with the counter, and a harness body by a tree of calls. -/

/-- Outcome of awaiting a test body under `panic::AssertUnwindSafe(f).catch_unwind()`:
either the future completed, or it panicked with some payload. -/
inductive PanicPayload
  | staticStr (msg : List Char)
  | ownedString (msg : List Char)
  | other
deriving DecidableEq

/-- The harness state: events reported so far (in order) and the
`count: AtomicUsize` test counter. -/
structure HarnessState where
  events : List TestEvent
  count : Nat
deriving DecidableEq

/-- The fallback failure text used when a panic payload is neither a
`&'static str` nor a `String` (line 128 of `winit-test/src/lib.rs`). -/
def unintelligiblePanic : List Char := "<unintelligible panic>".data

/-- The downcast chain of `TestHarness::test` (lines 122–129): try
`&'static str`, then `String`, then fall back to the fixed placeholder. -/
def downcastFailure : PanicPayload → List Char
  | .staticStr msg => msg
  | .ownedString msg => msg
  | .other => unintelligiblePanic

/-- One call of `TestHarness::test(name, f)` where the body finishes with
`outcome` (`none` models normal completion, `some p` a panic with payload
`p`): the counter is incremented, then exactly one `Result` event is
reported, mirroring lines 102–142 of `winit-test/src/lib.rs`. -/
def testCall (name : List Char) (outcome : Option PanicPayload)
    (s : HarnessState) : HarnessState :=
  let s := { s with count := s.count + 1 }
  match outcome with
  | none =>
      { s with events := s.events ++ [.Result ⟨name, .Success, []⟩] }
  | some payload =>
      { s with events :=
          s.events ++ [.Result ⟨name, .Failed, downcastFailure payload⟩] }

mutual

/-- A harness body: every sequence of `TestHarness.group` / `TestHarness.test`
calls is such a tree. -/
inductive Call
  | test (name : List Char) (outcome : Option PanicPayload)
  | group (name : List Char) (count : Nat) (body : Calls)

/-- A sequence of harness calls. -/
inductive Calls
  | nil
  | cons (c : Call) (cs : Calls)

end

mutual

/-- Execute one harness call against a state. `group` mirrors lines 83–99 of
`winit-test/src/lib.rs`: report `BeginGroup(name, count)`, run the body,
report `EndGroup(name)`. -/
def runCall : Call → HarnessState → HarnessState
  | .test name outcome, s => testCall name outcome s
  | .group name count body, s =>
      let s1 := { s with events := s.events ++ [.BeginGroup name count] }
      let s2 := runCalls body s1
      { s2 with events := s2.events ++ [.EndGroup name] }

/-- Execute a sequence of harness calls in order. -/
def runCalls : Calls → HarnessState → HarnessState
  | .nil, s => s
  | .cons c cs, s => runCalls cs (runCall c s)

end

/-- The event stream produced by `run_tests` for a given harness body
(lines 196–210 of `winit-test/src/lib.rs`): run the body from the fresh
harness, then report one final `End` event carrying the counter. -/
def runTests (body : Calls) : List TestEvent :=
  let s := runCalls body ⟨[], 0⟩
  s.events ++ [.End s.count]

mutual

/-- Number of `test` invocations a call performs. -/
def callTests : Call → Nat
  | .test _ _ => 1
  | .group _ _ body => callsTests body

/-- Number of `test` invocations a call sequence performs. -/
def callsTests : Calls → Nat
  | .nil => 0
  | .cons c cs => callTests c + callsTests cs

end

/-- Recognizer for `End` events. -/
def isEndEvent : TestEvent → Bool
  | .End _ => true
  | _ => false

/-- Stack-based well-nestedness checker: `BeginGroup` pushes its name,
`EndGroup` must pop an equal name, `Result` is neutral, and no `End` event
may occur; the stack must be empty at both ends. -/
def checkNest : List TestEvent → List (List Char) → Bool
  | [], stack => stack.isEmpty
  | .BeginGroup name _ :: rest, stack => checkNest rest (name :: stack)
  | .EndGroup name :: rest, top :: stack =>
      decide (name = top) && checkNest rest stack
  | .EndGroup _ :: _, [] => false
  | .Result _ :: rest, stack => checkNest rest stack
  | .End _ :: _, _ => false

/-- The single `Result` event `TestHarness::test` reports for a body with
the given outcome. -/
def resultEvent (name : List Char) : Option PanicPayload → TestEvent
  | none => .Result ⟨name, .Success, []⟩
  | some payload => .Result ⟨name, .Failed, downcastFailure payload⟩

mutual

/-- Events emitted by one harness call, starting from any state. -/
def callTrace : Call → List TestEvent
  | .test name outcome => [resultEvent name outcome]
  | .group name count body =>
      .BeginGroup name count :: (callsTrace body ++ [.EndGroup name])

/-- Events emitted by a sequence of harness calls. -/
def callsTrace : Calls → List TestEvent
  | .nil => []
  | .cons c cs => callTrace c ++ callsTrace cs

end

/-! ## Byte-level event encoding (`winit-test/src/reporter/writer.rs`)

`StreamReporter::report` serializes the event with `serde_json::to_vec` and
prepends the payload length as `u64::to_le_bytes`. Bytes are modelled as
natural numbers below 256. The JSON layout produced by serde for the derived
`Serialize` impls is: externally tagged enum variants
(`{"End":{"count":N}}`, `{"BeginGroup":{"name":S,"count":N}}`,
`{"EndGroup":S}`, `{"Result":{"name":S,"status":S,"failure":S}}`), unit
variants of `TestStatus` as plain strings, and compact output with no
whitespace. serde_json escapes `"` and `\`, uses the short escapes for
control characters 0x08/0x09/0x0A/0x0C/0x0D, writes all other control
characters as lowercase `\u00XX`, and leaves everything else as raw UTF-8. -/

/-- UTF-8 encoding of one unicode scalar value, as byte values. -/
def utf8Bytes (c : Char) : List Nat :=
  let v := c.toNat
  if v < 128 then [v]
  else if v < 2048 then [192 + v / 64, 128 + v % 64]
  else if v < 65536 then [224 + v / 4096, 128 + v / 64 % 64, 128 + v % 64]
  else [240 + v / 262144, 128 + v / 4096 % 64, 128 + v / 64 % 64, 128 + v % 64]

/-- Byte of the lowercase hexadecimal digit for `n < 16` (serde_json's
`\u00XX` escapes use lowercase hex). -/
def hexDigitByte (n : Nat) : Nat :=
  if n < 10 then 48 + n else 87 + n

/-- serde_json's escaping of one character inside a JSON string literal. -/
def escapeChar (c : Char) : List Nat :=
  let v := c.toNat
  if v = 34 then [92, 34]
  else if v = 92 then [92, 92]
  else if v = 8 then [92, 98]
  else if v = 9 then [92, 116]
  else if v = 10 then [92, 110]
  else if v = 12 then [92, 102]
  else if v = 13 then [92, 114]
  else if v < 32 then [92, 117, 48, 48, hexDigitByte (v / 16), hexDigitByte (v % 16)]
  else utf8Bytes c

/-- Escaped bytes of a whole string body. -/
def renderChars : List Char → List Nat
  | [] => []
  | c :: cs => escapeChar c ++ renderChars cs

/-- A JSON string literal: quote, escaped body, quote. -/
def jstr (s : List Char) : List Nat :=
  34 :: (renderChars s ++ [34])

/-- Decimal digit bytes of a natural number, most significant first. -/
def natBytes (n : Nat) : List Nat :=
  if h : n < 10 then [48 + n]
  else natBytes (n / 10) ++ [48 + n % 10]
decreasing_by exact Nat.div_lt_self (by omega) (by omega)

/-- JSON encoding of a `TestStatus` (serde unit variants become strings). -/
def encodeStatus : TestStatus → List Nat
  | .Success => jstr "Success".data
  | .Failed => jstr "Failed".data
  | .Ignored => jstr "Ignored".data

/-- Compact serde_json encoding of a `TestEvent`, as produced by
`serde_json::to_vec(&test)` in `StreamReporter::report`. Byte 123 is the
opening brace, 125 the closing brace, 58 the colon, 44 the comma. -/
def encodeEvent : TestEvent → List Nat
  | .End count =>
      [123] ++ jstr "End".data ++ [58] ++
        ([123] ++ jstr "count".data ++ [58] ++ natBytes count ++ [125]) ++ [125]
  | .BeginGroup name count =>
      [123] ++ jstr "BeginGroup".data ++ [58] ++
        ([123] ++ jstr "name".data ++ [58] ++ jstr name ++ [44] ++
          jstr "count".data ++ [58] ++ natBytes count ++ [125]) ++ [125]
  | .EndGroup name =>
      [123] ++ jstr "EndGroup".data ++ [58] ++ jstr name ++ [125]
  | .Result r =>
      [123] ++ jstr "Result".data ++ [58] ++
        ([123] ++ jstr "name".data ++ [58] ++ jstr r.name ++ [44] ++
          jstr "status".data ++ [58] ++ encodeStatus r.status ++ [44] ++
          jstr "failure".data ++ [58] ++ jstr r.failure ++ [125]) ++ [125]

/-- The eight little-endian bytes of `(n as u64).to_le_bytes()`. -/
def leBytes8 (n : Nat) : List Nat :=
  [n % 256, n / 2 ^ 8 % 256, n / 2 ^ 16 % 256, n / 2 ^ 24 % 256,
    n / 2 ^ 32 % 256, n / 2 ^ 40 % 256, n / 2 ^ 48 % 256, n / 2 ^ 56 % 256]

/-- Value of a little-endian byte sequence (`u64::from_le_bytes` reads the
eight header bytes this way). -/
def leValue : List Nat → Nat
  | [] => 0
  | b :: bs => b + 256 * leValue bs

/-- One frame written by `StreamReporter::report` (lines 55–64 of
`winit-test/src/reporter/writer.rs`): the JSON bytes preceded by the number
of bytes expected, as a `u64` in little-endian order. -/
def encodeFrame (e : TestEvent) : List Nat :=
  leBytes8 (encodeEvent e).length ++ encodeEvent e

/-! ## Frame decoding (`winit-test/src/lib.rs`, `run_over_stream`)

The receiving side reads exactly 8 bytes, interprets them as a little-endian
`u64` length, reads exactly that many payload bytes and parses them with
`serde_json::from_slice::<TestEvent>`. The parser below is a faithful strict
model of that deserialization on the documents the writer produces: it
accepts the full JSON string grammar (short escapes, `\u00XX` escapes and raw
UTF-8 with the usual overlong/surrogate checks) and the externally tagged
variant layout generated by the derived `Deserialize` impls; like
`serde_json::from_slice` it rejects payloads with trailing bytes. -/

/-- Map a cons onto the parsed characters of a string-body parse result. -/
def mapCons (c : Char) : Option (List Char × List Nat) → Option (List Char × List Nat)
  | some (cs, rest) => some (c :: cs, rest)
  | none => none

/-- Value of one hexadecimal digit byte. -/
def hexVal (b : Nat) : Option Nat :=
  if 48 ≤ b ∧ b ≤ 57 then some (b - 48)
  else if 97 ≤ b ∧ b ≤ 102 then some (b - 87)
  else if 65 ≤ b ∧ b ≤ 70 then some (b - 55)
  else none

/-- Decode the remainder of a backslash escape (the backslash already
consumed): the short escapes, the solidus, or a `\uXXXX` BMP scalar. -/
def parseEscSeq : List Nat → Option (Char × List Nat)
  | [] => none
  | e :: bs1 =>
    if e = 34 then some (Char.ofNat 34, bs1)
    else if e = 92 then some (Char.ofNat 92, bs1)
    else if e = 47 then some (Char.ofNat 47, bs1)
    else if e = 98 then some (Char.ofNat 8, bs1)
    else if e = 116 then some (Char.ofNat 9, bs1)
    else if e = 110 then some (Char.ofNat 10, bs1)
    else if e = 102 then some (Char.ofNat 12, bs1)
    else if e = 114 then some (Char.ofNat 13, bs1)
    else if e = 117 then
      match bs1 with
      | h1 :: h2 :: h3 :: h4 :: bs2 =>
        match hexVal h1, hexVal h2, hexVal h3, hexVal h4 with
        | some x1, some x2, some x3, some x4 =>
            let v := ((x1 * 16 + x2) * 16 + x3) * 16 + x4
            if v < 55296 ∨ (57343 < v ∧ v < 65536) then
              some (Char.ofNat v, bs2)
            else none
        | _, _, _, _ => none
      | _ => none
    else none

/-- Decode one UTF-8 sequence whose lead byte `b` is already consumed, with
the usual overlong, surrogate and range checks. -/
def parseUtf8Seq (b : Nat) (bs : List Nat) : Option (Char × List Nat) :=
  if b < 128 then some (Char.ofNat b, bs)
  else if 194 ≤ b ∧ b < 224 then
    match bs with
    | b1 :: bs1 =>
        if 128 ≤ b1 ∧ b1 < 192 then
          some (Char.ofNat ((b - 192) * 64 + (b1 - 128)), bs1)
        else none
    | [] => none
  else if 224 ≤ b ∧ b < 240 then
    match bs with
    | b1 :: b2 :: bs2 =>
        if (128 ≤ b1 ∧ b1 < 192) ∧ (128 ≤ b2 ∧ b2 < 192) then
          let v := (b - 224) * 4096 + (b1 - 128) * 64 + (b2 - 128)
          if 2048 ≤ v ∧ (v < 55296 ∨ 57343 < v) then some (Char.ofNat v, bs2)
          else none
        else none
    | _ => none
  else if 240 ≤ b ∧ b < 245 then
    match bs with
    | b1 :: b2 :: b3 :: bs3 =>
        if (128 ≤ b1 ∧ b1 < 192) ∧ (128 ≤ b2 ∧ b2 < 192) ∧ (128 ≤ b3 ∧ b3 < 192) then
          let v := (b - 240) * 262144 + (b1 - 128) * 4096 +
            (b2 - 128) * 64 + (b3 - 128)
          if 65536 ≤ v ∧ v < 1114112 then some (Char.ofNat v, bs3)
          else none
        else none
    | _ => none
  else none

/-- Parse the body of a JSON string literal (the opening quote already
consumed) up to and including the closing quote, decoding escapes and UTF-8
sequences to characters. The fuel decreases once per decoded character;
since every character consumes at least one byte, fuel equal to the byte
length of the input (as passed by `parseStrBody`) never runs out before the
input does, so the fueled loop is exactly the unbounded one. -/
def parseStrBodyF : Nat → List Nat → Option (List Char × List Nat)
  | 0, _ => none
  | _ + 1, [] => none
  | fuel + 1, b :: bs =>
    if b = 34 then some ([], bs)
    else if b = 92 then
      match parseEscSeq bs with
      | some (c, bs1) => mapCons c (parseStrBodyF fuel bs1)
      | none => none
    else if b < 32 then none
    else
      match parseUtf8Seq b bs with
      | some (c, bs1) => mapCons c (parseStrBodyF fuel bs1)
      | none => none

/-- String-body parsing with sufficient fuel. -/
def parseStrBody (bs : List Nat) : Option (List Char × List Nat) :=
  parseStrBodyF bs.length bs

/-- Parse a JSON string literal including its opening quote. -/
def parseJString : List Nat → Option (List Char × List Nat)
  | b :: bs => if b = 34 then parseStrBody bs else none
  | [] => none

/-- Consume digit bytes greedily, folding them into an accumulator. -/
def parseDigits : List Nat → Nat → Nat × List Nat
  | [], acc => (acc, [])
  | b :: bs, acc =>
      if 48 ≤ b ∧ b ≤ 57 then parseDigits bs (acc * 10 + (b - 48))
      else (acc, b :: bs)

/-- Parse a nonnegative JSON number (at least one digit). -/
def parseNat : List Nat → Option (Nat × List Nat)
  | b :: bs =>
      if 48 ≤ b ∧ b ≤ 57 then some (parseDigits bs (b - 48)) else none
  | [] => none

/-- Expect the given literal bytes and consume them. -/
def dropLit : List Nat → List Nat → Option (List Nat)
  | [], bs => some bs
  | _ :: _, [] => none
  | p :: ps, b :: bs => if b = p then dropLit ps bs else none

/-- Deserialize a `TestStatus` from its variant name. -/
def statusOfName (s : List Char) : Option TestStatus :=
  if s = "Success".data then some .Success
  else if s = "Failed".data then some .Failed
  else if s = "Ignored".data then some .Ignored
  else none

/-- Parse the content of one externally tagged variant, given its key. -/
def parseEventContent (key : List Char) (bs : List Nat) : Option (TestEvent × List Nat) :=
  if key = "End".data then do
    let bs ← dropLit ([123] ++ jstr "count".data ++ [58]) bs
    let (count, bs) ← parseNat bs
    let bs ← dropLit [125] bs
    pure (.End count, bs)
  else if key = "BeginGroup".data then do
    let bs ← dropLit ([123] ++ jstr "name".data ++ [58]) bs
    let (name, bs) ← parseJString bs
    let bs ← dropLit ([44] ++ jstr "count".data ++ [58]) bs
    let (count, bs) ← parseNat bs
    let bs ← dropLit [125] bs
    pure (.BeginGroup name count, bs)
  else if key = "EndGroup".data then do
    let (name, bs) ← parseJString bs
    pure (.EndGroup name, bs)
  else if key = "Result".data then do
    let bs ← dropLit ([123] ++ jstr "name".data ++ [58]) bs
    let (name, bs) ← parseJString bs
    let bs ← dropLit ([44] ++ jstr "status".data ++ [58]) bs
    let (statusName, bs) ← parseJString bs
    let status ← statusOfName statusName
    let bs ← dropLit ([44] ++ jstr "failure".data ++ [58]) bs
    let (failure, bs) ← parseJString bs
    let bs ← dropLit [125] bs
    pure (.Result ⟨name, status, failure⟩, bs)
  else none

/-- Parse one `TestEvent` document: an object with a single variant key. -/
def parseEvent (bs : List Nat) : Option (TestEvent × List Nat) := do
  let bs ← dropLit [123] bs
  let (key, bs) ← parseJString bs
  let bs ← dropLit [58] bs
  let (e, bs) ← parseEventContent key bs
  let bs ← dropLit [125] bs
  pure (e, bs)

/-- Decode one frame as `run_over_stream` does (lines 308–323 of
`winit-test/src/lib.rs`): read exactly 8 length bytes, interpret them as a
little-endian `u64`, read exactly that many payload bytes, and parse the
payload as one JSON `TestEvent` (`serde_json::from_slice` fails unless the
whole payload is consumed). Returns the event and the unread remainder of
the stream. -/
def decodeFrame (bs : List Nat) : Option (TestEvent × List Nat) :=
  if bs.length < 8 then none
  else
    let len := leValue (bs.take 8)
    let rest := bs.drop 8
    if rest.length < len then none
    else
      match parseEvent (rest.take len) with
      | some (e, []) => some (e, rest.drop len)
      | _ => none

/-! ## Console reporter (`winit-test/src/reporter/console.rs`)

`ConsoleReporter` holds `exit_code: i32`, `indent: usize` and a `failures`
vector. `report` prints one line per `End`, `BeginGroup` and `Result` event
(nothing for `EndGroup`), indents by two spaces per nesting level, and on a
`Failed` result pushes the failure, sets the exit code to 1 and prints the
same green bold "ok" text the `Success` arm prints. `finish` returns the
accumulated exit code. Styling escape sequences are omitted; the `Failed`
and `Success` arms use the identical `"ok".green().bold()` styling. -/

/-- State of `ConsoleReporter`, plus the lines written to stdout. -/
structure ConsoleState where
  exitCode : Int
  indent : Nat
  failures : List (List Char × List Char)
  output : List (List Char)
deriving DecidableEq

/-- A fresh `ConsoleReporter` (`ConsoleReporter::new`). -/
def consoleInit : ConsoleState := ⟨0, 0, [], []⟩

/-- Two spaces per indent level (`SPACES_PER_INDENT = 2`). -/
def indentChars (n : Nat) : List Char := List.replicate (2 * n) ' '

/-- Decimal digits of a natural number, as characters. -/
def natChars (n : Nat) : List Char := (natBytes n).map Char.ofNat

/-- The console line printed for a `Result` event (lines 83–113 of
`winit-test/src/reporter/console.rs`): the `write!` preamble followed by the
status text chosen by the `match status` arms. -/
def consoleResultLine (indent : Nat) (name : List Char) (status : TestStatus) : List Char :=
  indentChars indent ++ "test ".data ++ name ++ "... ".data ++
    (match status with
     | .Failed => "ok".data
     | .Ignored => "ignored".data
     | .Success => "ok".data)

/-- `ConsoleReporter::report` for one event. -/
def consoleReport (s : ConsoleState) (e : TestEvent) : ConsoleState :=
  match e with
  | .End _ =>
      { s with output := s.output ++
          [if s.exitCode = 0 then "test result: ok".data
           else "test result: FAILED".data] }
  | .BeginGroup name count =>
      { s with
        output := s.output ++
          [indentChars s.indent ++ "running test group '".data ++ name ++
            "' with ".data ++ natChars count ++ " tests...".data],
        indent := s.indent + 1 }
  | .EndGroup _ => { s with indent := s.indent - 1 }
  | .Result r =>
      match r.status with
      | .Failed =>
          { s with
            failures := s.failures ++ [(r.name, r.failure)],
            exitCode := 1,
            output := s.output ++ [consoleResultLine s.indent r.name .Failed] }
      | .Ignored =>
          { s with output := s.output ++ [consoleResultLine s.indent r.name .Ignored] }
      | .Success =>
          { s with output := s.output ++ [consoleResultLine s.indent r.name .Success] }

/-- `ConsoleReporter::finish` returns the accumulated exit code. -/
def consoleFinish (s : ConsoleState) : Int := s.exitCode

/-! ## Stream reporter state (`winit-test/src/reporter/writer.rs`) -/

/-- State of `StreamReporter`: the exit code and the bytes written so far. -/
structure StreamState where
  exitCode : Int
  sent : List Nat

/-- A freshly connected `StreamReporter` (`StreamReporter::connect` sets
`exit_code: 0`). -/
def streamInit : StreamState := ⟨0, []⟩

/-- `StreamReporter::report`: set the exit code to 1 on a `Failed` result,
then write the length-prefixed frame to the socket. -/
def streamReport (s : StreamState) (e : TestEvent) : StreamState :=
  { exitCode :=
      match e with
      | .Result r => match r.status with | .Failed => 1 | _ => s.exitCode
      | _ => s.exitCode,
    sent := s.sent ++ encodeFrame e }

/-- `StreamReporter::finish` (lines 68–70 of `writer.rs`): it returns the
constant 0, not the accumulated exit code. -/
def streamFinish (_ : StreamState) : Int := 0

/-- Recognizer for `Result` events with status `Failed`. -/
def isFailedResult : TestEvent → Bool
  | .Result r => match r.status with | .Failed => true | _ => false
  | _ => false

/-! ## Environment cache (`keter-test-runner/src/runner/environment/choose.rs`)

`OPEN_ENVIRONMENTS` is a process-wide map from `CheckKey` to a shared
environment handle. `choose` looks the key up, constructs a `CurrentHost` or
`AndroidEnvironment` on a miss (host triple equal to the requested triple,
or Linux host with Android target), inserts it and returns it; `cleanup`
drains the map and awaits `cleanup()` on each drained entry, returning early
through `?` on the first error. Environment construction is modelled by a
fresh instance counter standing for the new live instance (container or
connection) the constructed environment owns. -/

/-- The requested check, reduced to the fields `choose` consults. -/
structure Check where
  targetTriple : List Char
  hostEnv : Option (List Char)
deriving DecidableEq

/-- The cache key (`struct CheckKey`). -/
structure CheckKey where
  targetTriple : List Char
  hostEnv : Option (List Char)
deriving DecidableEq

/-- Which environment variant was constructed. -/
inductive EnvVariant
  | host
  | android
deriving DecidableEq

/-- A shared environment handle; `instId` identifies the underlying live
instance (the `Arc` identity / container id). -/
structure EnvHandle where
  instId : Nat
  variant : EnvVariant
deriving DecidableEq

/-- The `OPEN_ENVIRONMENTS` map together with the fresh-instance counter. -/
structure EnvCache where
  entries : List (CheckKey × EnvHandle)
  nextInst : Nat
deriving DecidableEq

/-- Lookup in the map. -/
def lookupEnv (key : CheckKey) : List (CheckKey × EnvHandle) → Option EnvHandle
  | [] => none
  | (k, h) :: rest => if k = key then some h else lookupEnv key rest

/-- Substring test, mirroring Rust's `str::contains`. -/
def hasSubstr (needle : List Char) : List Char → Bool
  | [] => needle.isEmpty
  | c :: rest => needle.isPrefixOf (c :: rest) || hasSubstr needle rest

/-- The `choose` function (lines 26–70 of `choose.rs`): return the cached
handle for the key if present; otherwise construct a host environment when
the detected host triple equals the requested triple, an Android environment
when the host triple contains "linux" and the target contains "android", and
fail otherwise; a constructed handle is inserted before it is returned. -/
def chooseEnv (hostTarget : List Char) (check : Check) (s : EnvCache) :
    Except (List Char) (EnvHandle × EnvCache) :=
  let key : CheckKey := ⟨check.targetTriple, check.hostEnv⟩
  match lookupEnv key s.entries with
  | some h => .ok (h, s)
  | none =>
      if hostTarget = check.targetTriple then
        let h : EnvHandle := ⟨s.nextInst, .host⟩
        .ok (h, ⟨s.entries ++ [(key, h)], s.nextInst + 1⟩)
      else if hasSubstr "linux".data hostTarget &&
          hasSubstr "android".data check.targetTriple then
        let h : EnvHandle := ⟨s.nextInst, .android⟩
        .ok (h, ⟨s.entries ++ [(key, h)], s.nextInst + 1⟩)
      else
        .error "cannot find compatible environment".data

/-- The drain loop of `cleanup` (lines 72–83 of `choose.rs`): walk the
drained entries, awaiting `cleanup()` on each; `host.cleanup().await?`
returns on the first error, so later entries are dropped without their
cleanup being attempted. Returns the propagated result and the handles on
which cleanup was actually invoked, in order. -/
def cleanupEntries (f : EnvHandle → Except (List Char) Unit) :
    List (CheckKey × EnvHandle) → Except (List Char) Unit × List EnvHandle
  | [] => (.ok (), [])
  | (_, h) :: rest =>
      match f h with
      | .error e => (.error e, [h])
      | .ok () =>
          ((cleanupEntries f rest).1, h :: (cleanupEntries f rest).2)

/-- Whether a cleanup call succeeded. -/
def exceptOk : Except (List Char) Unit → Bool
  | .ok _ => true
  | .error _ => false

/-- The `cleanup` function: drain the whole map (the map is empty afterwards
whatever happens), run the loop, and propagate its result. The third
component records which environments had `cleanup()` invoked. -/
def cleanupAll (f : EnvHandle → Except (List Char) Unit) (s : EnvCache) :
    Except (List Char) Unit × EnvCache × List EnvHandle :=
  let (r, attempted) := cleanupEntries f s.entries
  (r, ⟨[], s.nextInst⟩, attempted)

/-! ## ADB connect retry loop
(`winit-test-runner/src/runner/environment/android.rs`, lines 110–134)

`setup_android_emulator` runs `for i in 0..5 { match adb_connect().await
{ Ok(()) => break, Err(err) => if i == 5 { return Err(err) } else
{ retry } } }` and then proceeds with the rest of the setup. `attempt i`
models the outcome of the i-th `adb connect` invocation. -/

/-- One pass of the `for i in 0..5` loop over the remaining indices:
`Ok` breaks out, `Err` returns the error only when `i == 5`, otherwise
retries; falling off the end of the loop continues the setup as if
connected. -/
def adbConnectSeq (attempt : Nat → Except (List Char) Unit) :
    List Nat → Except (List Char) Unit
  | [] => .ok ()
  | i :: rest =>
      match attempt i with
      | .ok () => .ok ()
      | .error e => if i = 5 then .error e else adbConnectSeq attempt rest

/-- The whole retry loop: `0..5` iterates over i = 0, 1, 2, 3, 4. -/
def adbConnect (attempt : Nat → Except (List Char) Unit) :
    Except (List Char) Unit :=
  adbConnectSeq attempt [0, 1, 2, 3, 4]

/-! ## Command runner (`keter-test-runner/src/runner/command.rs`)

`run(name, child, timeout)` drops stdin, spawns the two drain tasks, spawns
an exit-waiting task and races it via `status.or(timeout)` against
`Timer::never` (no timeout) or `Timer::after(d)`; afterwards it cancels the
two drain tasks. No code path kills the child process. Futures are modelled
by the abstract instant at which they become ready and their value; `Or`
polls its first future first, so a tie resolves to the exit future. -/

/-- A future that becomes ready at `readyAt` with `value` (`none`: never). -/
structure MFuture (α : Type) where
  readyAt : Option Nat
  value : α

/-- `a.or(b)`: the first future to become ready wins; on a tie the first
(polled first) wins; the result carries the instant of resolution. -/
def raceFirst {α : Type} (a b : MFuture α) : Option (Nat × α) :=
  match a.readyAt, b.readyAt with
  | some ta, some tb => if ta ≤ tb then some (ta, a.value) else some (tb, b.value)
  | some ta, none => some (ta, a.value)
  | none, some tb => some (tb, b.value)
  | none, none => none

/-- Exit-side failures of a child (`NonZeroExit` or an I/O error), distinct
from the timeout error. -/
inductive ExitError
  | nonZeroExit (status : Nat)
  | ioError
deriving DecidableEq

/-- Errors `run` can resolve with. -/
inductive RunError
  | timedOut (name : List Char)
  | exitSide (e : ExitError)
deriving DecidableEq

/-- A spawned child: its exit future resolves at `exitAt` with `exitResult`. -/
structure ChildProcess where
  exitAt : Nat
  exitResult : Except ExitError Unit

/-- The exit-waiting task of `run`. -/
def statusFuture (child : ChildProcess) : MFuture (Except RunError Unit) :=
  ⟨some child.exitAt, child.exitResult.mapError RunError.exitSide⟩

/-- The timeout future of `run` (lines 134–139): `Timer::never` when no
timeout is given, `Timer::after(d)` otherwise, resolving to the timeout
error. -/
def timerFuture (name : List Char) : Option Nat → MFuture (Except RunError Unit)
  | none => ⟨none, .error (.timedOut name)⟩
  | some d => ⟨some d, .error (.timedOut name)⟩

/-- What `run` resolves to and whether it killed the child. -/
structure RunOutcome where
  resolved : Option (Nat × Except RunError Unit)
  childKilled : Bool

/-- The race in `run` (line 141, `status.or(timeout).await`); the source
cancels the two log-draining tasks afterwards but never kills the child. -/
def runCommand (name : List Char) (child : ChildProcess) (timeout : Option Nat) :
    RunOutcome :=
  { resolved := raceFirst (statusFuture child) (timerFuture name timeout),
    childKilled := false }

/-- Recognizer: did the run resolve with the timeout error? -/
def resolvedTimedOut : Option (Nat × Except RunError Unit) → Bool
  | some (_, .error (.timedOut _)) => true
  | _ => false

/-! ## Output draining (`keter-test-runner/src/runner/command.rs`, lines 73–124)

Each drain task loops `while read_line(&mut buffer).is_ok()`, breaks on an
empty buffer (EOF), then unconditionally `buffer.pop()`s the last character
before logging the line and clearing the buffer; after the loop any
remaining buffered data would be logged. `drainAux buffer s` walks the
stream character by character: on a newline the accumulated line is logged
(the pop removed exactly the newline); at end of stream a nonempty
accumulated line is what the final `read_line` returned without a newline,
so the pop removes its last content character (`dropLast`). -/

/-- The newline character. -/
def nlChar : Char := Char.ofNat 10

/-- The drain loop with the current `buffer` contents. -/
def drainAux (buffer : List Char) : List Char → List (List Char)
  | [] => if buffer.isEmpty then [] else [buffer.dropLast]
  | c :: rest =>
      if c = nlChar then buffer :: drainAux [] rest
      else drainAux (buffer ++ [c]) rest

/-- Lines logged for a whole stream, in order. -/
def drainLines (s : List Char) : List (List Char) := drainAux [] s

/-! ## Sample inputs used by witnesses and counterexamples -/

/-- An event with a non-ASCII name and empty failure text. -/
def sampleUnicodeEvent : TestEvent :=
  .Result ⟨"tèst ✓ 😀".data, .Failed, []⟩

/-- A failed result event. -/
def sampleFailedEvent : TestEvent := .Result ⟨"b".data, .Failed, "boom".data⟩

/-- A host check matching the sample host triple. -/
def sampleHostTriple : List Char := "x86_64-unknown-linux-gnu".data

/-- The check requesting the sample host triple. -/
def sampleCheck : Check := ⟨sampleHostTriple, none⟩

/-- The empty environment cache. -/
def emptyCache : EnvCache := ⟨[], 0⟩

/-- The cache state after the sample check was chosen once. -/
def sampleCache : EnvCache :=
  ⟨[(⟨sampleHostTriple, none⟩, ⟨0, .host⟩)], 1⟩

/-- A cache holding two environments, for the cleanup counterexample. -/
def twoEnvCache : EnvCache :=
  ⟨[(⟨"a".data, none⟩, ⟨0, .host⟩), (⟨"b".data, none⟩, ⟨1, .host⟩)], 2⟩

/-- A cleanup action that fails on instance 0 and succeeds elsewhere. -/
def failFirstCleanup (h : EnvHandle) : Except (List Char) Unit :=
  if h.instId = 0 then .error "docker stop failed".data else .ok ()

/-- A child that exits cleanly at instant 10. -/
def sampleChild : ChildProcess := ⟨10, .ok ()⟩

theorem testCall_eq (name : List Char) (outcome : Option PanicPayload)
    (s : HarnessState) :
    testCall name outcome s =
      ⟨s.events ++ [resultEvent name outcome], s.count + 1⟩ := by
  cases outcome <;> simp [testCall, resultEvent]

mutual

theorem runCall_eq (c : Call) (s : HarnessState) :
    runCall c s = ⟨s.events ++ callTrace c, s.count + callTests c⟩ := by
  cases c with
  | test name outcome =>
      simp [runCall, testCall_eq, callTrace, callTests]
  | group name count body =>
      simp [runCall, callTrace, callTests,
        runCalls_eq body ⟨s.events ++ [.BeginGroup name count], s.count⟩]

theorem runCalls_eq (cs : Calls) (s : HarnessState) :
    runCalls cs s = ⟨s.events ++ callsTrace cs, s.count + callsTests cs⟩ := by
  cases cs with
  | nil => simp [runCalls, callsTrace, callsTests]
  | cons c cs =>
      simp [runCalls, callsTrace, callsTests, runCall_eq c s,
        runCalls_eq cs ⟨s.events ++ callTrace c, s.count + callTests c⟩,
        Nat.add_assoc]

end

mutual

theorem checkNest_callTrace (c : Call) :
    ∀ rest stack, checkNest (callTrace c ++ rest) stack = checkNest rest stack := by
  intro rest stack
  cases c with
  | test name outcome => cases outcome <;> simp [callTrace, resultEvent, checkNest]
  | group name count body =>
      simp [callTrace, checkNest, checkNest_callsTrace body (.EndGroup name :: rest)]

theorem checkNest_callsTrace (cs : Calls) :
    ∀ rest stack, checkNest (callsTrace cs ++ rest) stack = checkNest rest stack := by
  intro rest stack
  cases cs with
  | nil => simp [callsTrace]
  | cons c cs =>
      simp [callsTrace, checkNest_callTrace c, checkNest_callsTrace cs]

end

mutual

theorem callTrace_no_end (c : Call) :
    ∀ e ∈ callTrace c, isEndEvent e = false := by
  intro e he
  cases c with
  | test name outcome =>
      cases outcome <;> simp_all [callTrace, resultEvent, isEndEvent]
  | group name count body =>
      simp only [callTrace, List.mem_cons, List.mem_append,
        List.mem_singleton] at he
      rcases he with rfl | he | rfl | h
      · rfl
      · exact callsTrace_no_end body e he
      · rfl
      · exact absurd h (List.not_mem_nil e)

theorem callsTrace_no_end (cs : Calls) :
    ∀ e ∈ callsTrace cs, isEndEvent e = false := by
  intro e he
  cases cs with
  | nil => simp [callsTrace] at he
  | cons c cs =>
      simp only [callsTrace, List.mem_append] at he
      rcases he with he | he
      · exact callTrace_no_end c e he
      · exact callsTrace_no_end cs e he

end

/-- Claim C1: for every sequence of `TestHarness.group` and `TestHarness.test`
calls, the stream emitted by `run_tests` is well-nested (every
`BeginGroup(name, count)` precedes its body's events and is closed by exactly
one `EndGroup` with the same name after them), and exactly one `End` event is
emitted, last, whose count equals the total number of `test` invocations made
during the run. -/
theorem harness_stream_well_nested (body : Calls) :
    checkNest (runTests body).dropLast [] = true ∧
    (runTests body).getLast? = some (.End (callsTests body)) ∧
    (runTests body).countP (fun e => isEndEvent e) = 1 := by
  have hrun := runCalls_eq body ⟨[], 0⟩
  refine ⟨?_, ?_, ?_⟩
  · have h := checkNest_callsTrace body [] []
    simp only [List.append_nil] at h
    simp [runTests, hrun, h, checkNest]
  · simp [runTests, hrun]
  · have h : (callsTrace body).countP (fun e => isEndEvent e) = 0 :=
      List.countP_eq_zero.mpr (by simpa using callsTrace_no_end body)
    simp only [runTests, hrun, List.nil_append, List.countP_append,
      List.countP_cons, List.countP_nil, h]
    simp [isEndEvent]

/-- Claim C2: every `TestHarness.test(name, body)` invocation emits exactly one
`Result` event: on a panic with a string payload (either a `&'static str` or a
`String`) the status is `Failed` and the failure text is that string; on a
panic with a non-string payload the status is `Failed` and the failure text is
the fixed placeholder; on normal completion the status is `Success` and the
failure text is empty. The test counter is incremented exactly once. -/
theorem test_call_result (name : List Char) (outcome : Option PanicPayload)
    (s : HarnessState) :
    (testCall name outcome s).events =
      s.events ++ [TestEvent.Result {
        name := name
        status := match outcome with
          | none => .Success
          | some _ => .Failed
        failure := match outcome with
          | none => []
          | some (.staticStr msg) => msg
          | some (.ownedString msg) => msg
          | some .other => unintelligiblePanic }] ∧
    (testCall name outcome s).count = s.count + 1 := by
  rcases outcome with _ | payload
  · simp [testCall]
  · cases payload <;> simp [testCall, downcastFailure]

/-- Claim C10: a `Failed` result is printed with exactly the same line the
`Success` arm prints, ending in the "ok" success text; the failure shows up
only in the accumulated exit code and the failures list. -/
theorem failed_result_prints_ok (s : ConsoleState) (name failure : List Char) :
    (consoleReport s (.Result ⟨name, .Failed, failure⟩)).output =
      s.output ++ [consoleResultLine s.indent name .Success] ∧
    (∃ pre, consoleResultLine s.indent name .Failed = pre ++ "ok".data) ∧
    (consoleReport s (.Result ⟨name, .Failed, failure⟩)).exitCode = 1 ∧
    (consoleReport s (.Result ⟨name, .Failed, failure⟩)).failures =
      s.failures ++ [(name, failure)] := by
  refine ⟨?_, ?_, rfl, rfl⟩
  · simp [consoleReport, consoleResultLine]
  · exact ⟨indentChars s.indent ++ "test ".data ++ name ++ "... ".data,
      by simp [consoleResultLine]⟩

theorem consoleReport_exitCode (s : ConsoleState) (e : TestEvent) :
    (consoleReport s e).exitCode = if isFailedResult e then 1 else s.exitCode := by
  cases e with
  | Result r =>
      obtain ⟨n, st, f⟩ := r
      cases st <;> simp [consoleReport, isFailedResult]
  | End count => simp [consoleReport, isFailedResult]
  | BeginGroup name count => simp [consoleReport, isFailedResult]
  | EndGroup name => simp [consoleReport, isFailedResult]

theorem streamReport_exitCode (s : StreamState) (e : TestEvent) :
    (streamReport s e).exitCode = if isFailedResult e then 1 else s.exitCode := by
  cases e with
  | Result r =>
      obtain ⟨n, st, f⟩ := r
      cases st <;> simp [streamReport, isFailedResult]
  | End count => simp [streamReport, isFailedResult]
  | BeginGroup name count => simp [streamReport, isFailedResult]
  | EndGroup name => simp [streamReport, isFailedResult]

theorem consoleReport_foldl_exitCode (events : List TestEvent) :
    ∀ s : ConsoleState, (events.foldl consoleReport s).exitCode =
      if events.any isFailedResult then 1 else s.exitCode := by
  induction events with
  | nil => intro s; simp
  | cons e rest ih =>
      intro s
      simp only [List.foldl_cons, List.any_cons, ih, consoleReport_exitCode]
      by_cases h1 : isFailedResult e = true <;>
        by_cases h2 : rest.any isFailedResult = true <;> simp [h1, h2]

theorem streamReport_foldl_exitCode (events : List TestEvent) :
    ∀ s : StreamState, (events.foldl streamReport s).exitCode =
      if events.any isFailedResult then 1 else s.exitCode := by
  induction events with
  | nil => intro s; simp
  | cons e rest ih =>
      intro s
      simp only [List.foldl_cons, List.any_cons, ih, streamReport_exitCode]
      by_cases h1 : isFailedResult e = true <;>
        by_cases h2 : rest.any isFailedResult = true <;> simp [h1, h2]

/-- Claim C8 counterexample: after reporting one `Failed` result the
`StreamReporter`'s accumulated exit code is 1, yet its `finish()` returns 0
instead of the accumulated code. -/
theorem stream_finish_ignores_exit_code :
    (streamReport streamInit sampleFailedEvent).exitCode = 1 ∧
    streamFinish (streamReport streamInit sampleFailedEvent) = 0 :=
  ⟨rfl, rfl⟩

/-- Claim C8 (amended): for every event sequence of one harness run, the
accumulated exit code of both cited reporters is 0 unless some `Result` event
has status `Failed`, in which case it is 1; `ConsoleReporter::finish` returns
that accumulated exit code, but `StreamReporter::finish` always returns the
constant 0 (the remote side recomputes the exit code from the relayed
events). -/
theorem reporter_exit_code_accumulation (events : List TestEvent) :
    consoleFinish (events.foldl consoleReport consoleInit) =
      (if events.any isFailedResult then 1 else 0) ∧
    (events.foldl streamReport streamInit).exitCode =
      (if events.any isFailedResult then 1 else 0) ∧
    streamFinish (events.foldl streamReport streamInit) = 0 := by
  refine ⟨?_, ?_, rfl⟩
  · rw [consoleFinish, consoleReport_foldl_exitCode]; rfl
  · rw [streamReport_foldl_exitCode]; rfl

theorem adbConnectSeq_ok (attempt : Nat → Except (List Char) Unit) :
    ∀ l : List Nat, (∀ i ∈ l, i ≠ 5) → adbConnectSeq attempt l = .ok () := by
  intro l
  induction l with
  | nil => intro _; rfl
  | cons i rest ih =>
      intro h
      simp only [adbConnectSeq]
      cases hai : attempt i with
      | ok u => cases u; rfl
      | error e =>
          have h5 : ¬i = 5 := h i (by simp)
          simpa [h5] using ih fun j hj => h j (by simp [hj])

/-- Claim C6 (code bug): the ADB connect loop `for i in 0..5` checks
`if i == 5` before returning the error, but `i` only ever takes the values
0–4, so after the retry budget is exhausted the loop falls through and the
setup continues as if connected; in fact no `attempt` outcome whatsoever can
make the connect phase surface an error. -/
theorem adb_connect_retry_exhaustion :
    adbConnect (fun _ => .error "failed to connect".data) = .ok () ∧
    ∀ attempt : Nat → Except (List Char) Unit, adbConnect attempt = .ok () := by
  refine ⟨rfl, fun attempt => ?_⟩
  exact adbConnectSeq_ok attempt [0, 1, 2, 3, 4] (by decide)

/-- Claim C7: `run` races exit-waiting against the optional timer. With
`timeout = some d`, if the timer fires before the child's exit future
resolves, `run` resolves at instant `d` with the timeout error and the child
is not killed by this layer; with `timeout = none`, `run` resolves exactly
when and how the exit future does and never with a timeout error. -/
theorem run_command_race (name : List Char) (child : ChildProcess) :
    (∀ d : Nat, d < child.exitAt →
      runCommand name child (some d) =
        ⟨some (d, .error (.timedOut name)), false⟩) ∧
    runCommand name child none =
      ⟨some (child.exitAt, child.exitResult.mapError RunError.exitSide), false⟩ ∧
    resolvedTimedOut (runCommand name child none).resolved = false := by
  refine ⟨fun d hd => ?_, rfl, ?_⟩
  · simp only [runCommand, raceFirst, statusFuture, timerFuture]
    rw [if_neg (by omega)]
  · cases hres : child.exitResult with
    | ok u =>
        simp [runCommand, raceFirst, statusFuture, timerFuture, hres,
          Except.mapError, resolvedTimedOut]
    | error e =>
        simp [runCommand, raceFirst, statusFuture, timerFuture, hres,
          Except.mapError, resolvedTimedOut]

/-- Witness for the command-runner race at a concrete child and timeout. -/
theorem run_command_race_witness :
    runCommand "sleeper".data sampleChild (some 5) =
      ⟨some (5, .error (.timedOut "sleeper".data)), false⟩ :=
  (run_command_race "sleeper".data sampleChild).1 5 (by decide)

/-- Claim C9 (code bug): the drain loop logs complete lines with their
newline stripped, but a final line without a trailing newline is logged with
its last content character removed by the unconditional `buffer.pop()`: the
stream "abc" is logged as "ab", and appended after a complete line the
trailing "xy" is logged as "x", so the trailing line's content is not kept
intact. -/
theorem drain_truncates_trailing_line :
    drainLines ("abc\n".data ++ "xy".data) = ["abc".data, "x".data] ∧
    drainLines "abc".data = ["ab".data] ∧
    drainLines "abc\n".data = ["abc".data] := by
  refine ⟨?_, ?_, ?_⟩ <;> rfl

theorem cleanupEntries_spec (f : EnvHandle → Except (List Char) Unit) :
    ∀ l : List (CheckKey × EnvHandle),
      (cleanupEntries f l).2 =
        ((l.map Prod.snd).takeWhile (fun h => exceptOk (f h)) ++
          ((l.map Prod.snd).dropWhile (fun h => exceptOk (f h))).take 1) ∧
      (cleanupEntries f l).1 =
        (match (l.map Prod.snd).dropWhile (fun h => exceptOk (f h)) with
         | [] => .ok ()
         | h :: _ => f h) := by
  intro l
  induction l with
  | nil => exact ⟨rfl, rfl⟩
  | cons kh rest ih =>
      obtain ⟨k, h⟩ := kh
      cases hf : f h with
      | ok u =>
          cases u
          refine ⟨?_, ?_⟩
          · simp [cleanupEntries, hf, List.takeWhile_cons, List.dropWhile_cons,
              exceptOk, ih.1]
          · simp [cleanupEntries, hf, List.dropWhile_cons, exceptOk, ih.2]
      | error e =>
          refine ⟨?_, ?_⟩ <;>
            simp [cleanupEntries, hf, List.takeWhile_cons, List.dropWhile_cons,
              exceptOk]

/-- Claim C5 counterexample: with two cached environments whose first cleanup
fails, `cleanup` propagates the error but never attempts cleanup on the
second entry (only the handle of instance 0 had `cleanup()` invoked, although
the drained map held two environments). -/
theorem cleanup_skips_remaining_after_error :
    (cleanupAll failFirstCleanup twoEnvCache).1 =
      .error "docker stop failed".data ∧
    (cleanupAll failFirstCleanup twoEnvCache).2.2 = [⟨0, .host⟩] ∧
    twoEnvCache.entries.map Prod.snd = [⟨0, .host⟩, ⟨1, .host⟩] :=
  ⟨rfl, rfl, rfl⟩

/-- Claim C5 (amended): `cleanup` drains the whole map (it is empty
afterwards in every case), and calls `cleanup` on the cached environments in
order, each at most once, stopping at the first failure: the environments
that get a cleanup call are exactly the leading successes plus the first
failing entry, the first error encountered is propagated, and entries after
the first failure are dropped without any cleanup attempt. -/
theorem cleanup_all_first_error_stops
    (f : EnvHandle → Except (List Char) Unit) (s : EnvCache) :
    (cleanupAll f s).2.1.entries = [] ∧
    (cleanupAll f s).2.2 =
      ((s.entries.map Prod.snd).takeWhile (fun h => exceptOk (f h)) ++
        ((s.entries.map Prod.snd).dropWhile (fun h => exceptOk (f h))).take 1) ∧
    (cleanupAll f s).1 =
      (match (s.entries.map Prod.snd).dropWhile (fun h => exceptOk (f h)) with
       | [] => .ok ()
       | h :: _ => f h) :=
  ⟨rfl, (cleanupEntries_spec f s.entries).1, (cleanupEntries_spec f s.entries).2⟩

theorem lookupEnv_append_self (key : CheckKey) (h : EnvHandle) :
    ∀ l, lookupEnv key l = none → lookupEnv key (l ++ [(key, h)]) = some h := by
  intro l
  induction l with
  | nil => intro _; simp [lookupEnv]
  | cons kh rest ih =>
      obtain ⟨k, g⟩ := kh
      intro hl
      by_cases hk : k = key
      · simp [lookupEnv, hk] at hl
      · simp only [lookupEnv, if_neg hk] at hl
        simpa [lookupEnv, hk] using ih hl

theorem lookupEnv_none_not_mem (key : CheckKey) :
    ∀ l : List (CheckKey × EnvHandle),
      lookupEnv key l = none → key ∉ l.map Prod.fst := by
  intro l
  induction l with
  | nil => intro _; simp
  | cons kh rest ih =>
      obtain ⟨k, g⟩ := kh
      intro hl
      by_cases hk : k = key
      · simp [lookupEnv, hk] at hl
      · simp only [lookupEnv, if_neg hk] at hl
        simp only [List.map_cons, List.mem_cons]
        rintro (rfl | hmem)
        · exact hk rfl
        · exact ih hl hmem

/-- Claim C4: within one run, a second `choose` with a check carrying the
same `(target_triple, host_env)` key returns the very same environment
handle and leaves the cache unchanged (no second live instance is
constructed), and the cache keeps at most one entry per key. -/
theorem choose_env_idempotent (hostTarget : List Char) (check : Check)
    (s s' : EnvCache) (env : EnvHandle)
    (hc : chooseEnv hostTarget check s = .ok (env, s'))
    (hnd : (s.entries.map Prod.fst).Nodup) :
    chooseEnv hostTarget check s' = .ok (env, s') ∧
    (s'.entries.map Prod.fst).Nodup := by
  simp only [chooseEnv] at hc ⊢
  cases hlk : lookupEnv ⟨check.targetTriple, check.hostEnv⟩ s.entries with
  | some h =>
      rw [hlk] at hc
      obtain ⟨rfl, rfl⟩ : env = h ∧ s' = s := by
        cases hc; exact ⟨rfl, rfl⟩
      rw [hlk]
      exact ⟨rfl, hnd⟩
  | none =>
      rw [hlk] at hc
      have hnotmem := lookupEnv_none_not_mem _ _ hlk
      by_cases hht : hostTarget = check.targetTriple
      · rw [if_pos hht] at hc
        obtain ⟨rfl, rfl⟩ :
            env = ⟨s.nextInst, .host⟩ ∧
            s' = ⟨s.entries ++ [(⟨check.targetTriple, check.hostEnv⟩, ⟨s.nextInst, .host⟩)],
              s.nextInst + 1⟩ := by
          cases hc; exact ⟨rfl, rfl⟩
        rw [lookupEnv_append_self _ _ _ hlk]
        refine ⟨rfl, ?_⟩
        simp only [List.map_append, List.map_cons, List.map_nil]
        rw [List.nodup_append]
        exact ⟨hnd, List.nodup_singleton _, by simpa using hnotmem⟩
      · rw [if_neg hht] at hc
        by_cases hla : (hasSubstr "linux".data hostTarget &&
            hasSubstr "android".data check.targetTriple) = true
        · rw [if_pos hla] at hc
          obtain ⟨rfl, rfl⟩ :
              env = ⟨s.nextInst, .android⟩ ∧
              s' = ⟨s.entries ++ [(⟨check.targetTriple, check.hostEnv⟩, ⟨s.nextInst, .android⟩)],
                s.nextInst + 1⟩ := by
            cases hc; exact ⟨rfl, rfl⟩
          rw [lookupEnv_append_self _ _ _ hlk]
          refine ⟨rfl, ?_⟩
          simp only [List.map_append, List.map_cons, List.map_nil]
          rw [List.nodup_append]
          exact ⟨hnd, List.nodup_singleton _, by simpa using hnotmem⟩
        · rw [if_neg hla] at hc
          cases hc

/-- Witness: choosing the sample host check twice from the empty cache
returns the same handle both times and leaves the one-entry cache as is. -/
theorem choose_env_idempotent_witness :
    chooseEnv sampleHostTriple sampleCheck sampleCache =
      .ok (⟨0, .host⟩, sampleCache) ∧
    (sampleCache.entries.map Prod.fst).Nodup :=
  choose_env_idempotent sampleHostTriple sampleCheck emptyCache sampleCache
    ⟨0, .host⟩ rfl (by decide)

theorem hexVal_hexDigitByte (x : Nat) (h : x < 16) :
    hexVal (hexDigitByte x) = some x := by
  by_cases h10 : x < 10
  · simp only [hexDigitByte, if_pos h10, hexVal]
    rw [if_pos (by omega)]
    simp only [Option.some.injEq]
    omega
  · simp only [hexDigitByte, if_neg h10, hexVal]
    rw [if_neg (by omega), if_pos (by omega)]
    simp only [Option.some.injEq]
    omega

theorem parseStrBodyF_escapeChar (c : Char) (fuel : Nat) (rest : List Nat) :
    parseStrBodyF (fuel + 1) (escapeChar c ++ rest) =
      mapCons c (parseStrBodyF fuel rest) := by
  have hvalid : c.toNat < 55296 ∨ (57343 < c.toNat ∧ c.toNat < 1114112) := c.valid
  have hchar : ∀ n : Nat, n = c.toNat → Char.ofNat n = c := fun n hn => by
    rw [hn, Char.ofNat_toNat]
  by_cases h34 : c.toNat = 34
  · have he : escapeChar c = [92, 34] := by
      simp only [escapeChar]; rw [if_pos h34]
    rw [he]
    simp [parseStrBodyF, parseEscSeq]
    rw [hchar 34 h34.symm]
  by_cases h92 : c.toNat = 92
  · have he : escapeChar c = [92, 92] := by
      simp only [escapeChar]; rw [if_neg h34, if_pos h92]
    rw [he]
    simp [parseStrBodyF, parseEscSeq]
    rw [hchar 92 h92.symm]
  by_cases h8 : c.toNat = 8
  · have he : escapeChar c = [92, 98] := by
      simp only [escapeChar]; rw [if_neg h34, if_neg h92, if_pos h8]
    rw [he]
    simp [parseStrBodyF, parseEscSeq]
    rw [hchar 8 h8.symm]
  by_cases h9 : c.toNat = 9
  · have he : escapeChar c = [92, 116] := by
      simp only [escapeChar]; rw [if_neg h34, if_neg h92, if_neg h8, if_pos h9]
    rw [he]
    simp [parseStrBodyF, parseEscSeq]
    rw [hchar 9 h9.symm]
  by_cases h10 : c.toNat = 10
  · have he : escapeChar c = [92, 110] := by
      simp only [escapeChar]
      rw [if_neg h34, if_neg h92, if_neg h8, if_neg h9, if_pos h10]
    rw [he]
    simp [parseStrBodyF, parseEscSeq]
    rw [hchar 10 h10.symm]
  by_cases h12 : c.toNat = 12
  · have he : escapeChar c = [92, 102] := by
      simp only [escapeChar]
      rw [if_neg h34, if_neg h92, if_neg h8, if_neg h9, if_neg h10, if_pos h12]
    rw [he]
    simp [parseStrBodyF, parseEscSeq]
    rw [hchar 12 h12.symm]
  by_cases h13 : c.toNat = 13
  · have he : escapeChar c = [92, 114] := by
      simp only [escapeChar]
      rw [if_neg h34, if_neg h92, if_neg h8, if_neg h9, if_neg h10, if_neg h12,
        if_pos h13]
    rw [he]
    simp [parseStrBodyF, parseEscSeq]
    rw [hchar 13 h13.symm]
  by_cases hctl : c.toNat < 32
  · have he : escapeChar c =
        [92, 117, 48, 48, hexDigitByte (c.toNat / 16), hexDigitByte (c.toNat % 16)] := by
      simp only [escapeChar]
      rw [if_neg h34, if_neg h92, if_neg h8, if_neg h9, if_neg h10, if_neg h12,
        if_neg h13, if_pos hctl]
    have hd1 : hexVal (hexDigitByte (c.toNat / 16)) = some (c.toNat / 16) :=
      hexVal_hexDigitByte _ (by omega)
    have hd2 : hexVal (hexDigitByte (c.toNat % 16)) = some (c.toNat % 16) :=
      hexVal_hexDigitByte _ (by omega)
    have hd0 : hexVal 48 = some 0 := rfl
    rw [he]
    simp only [List.cons_append, List.nil_append]
    simp [parseStrBodyF, parseEscSeq, hd0, hd1, hd2]
    split
    · rename_i ch bs1 heq
      rw [if_pos (by omega)] at heq
      simp only [Option.some.injEq, Prod.mk.injEq] at heq
      obtain ⟨hch, hbs⟩ := heq
      rw [← hch, ← hbs, hchar (c.toNat / 16 * 16 + c.toNat % 16) (by omega)]
    · rename_i heq
      rw [if_pos (by omega)] at heq
      simp at heq
  by_cases hascii : c.toNat < 128
  · have he : escapeChar c = [c.toNat] := by
      simp only [escapeChar, utf8Bytes]
      rw [if_neg h34, if_neg h92, if_neg h8, if_neg h9, if_neg h10, if_neg h12,
        if_neg h13, if_neg hctl, if_pos hascii]
    rw [he]
    simp [parseStrBodyF, parseUtf8Seq, h34, h92, hctl, hascii]
  by_cases h2b : c.toNat < 2048
  · have he : escapeChar c = [192 + c.toNat / 64, 128 + c.toNat % 64] := by
      simp only [escapeChar, utf8Bytes]
      rw [if_neg h34, if_neg h92, if_neg h8, if_neg h9, if_neg h10, if_neg h12,
        if_neg h13, if_neg hctl, if_neg hascii, if_pos h2b]
    have hutf : parseUtf8Seq (192 + c.toNat / 64) ((128 + c.toNat % 64) :: rest)
        = some (c, rest) := by
      simp only [parseUtf8Seq]
      repeat' split
      all_goals first
        | (exfalso; omega)
        | (simp only [Option.some.injEq, Prod.mk.injEq]
           exact ⟨by apply hchar; omega, trivial⟩)
    have hb34 : ¬(192 + c.toNat / 64 = 34) := by omega
    have hb92 : ¬(192 + c.toNat / 64 = 92) := by omega
    have hb32 : ¬(192 + c.toNat / 64 < 32) := by omega
    rw [he]
    simp [parseStrBodyF, hb34, hb92, hb32, hutf]
  by_cases h3b : c.toNat < 65536
  · have he : escapeChar c =
        [224 + c.toNat / 4096, 128 + c.toNat / 64 % 64, 128 + c.toNat % 64] := by
      simp only [escapeChar, utf8Bytes]
      rw [if_neg h34, if_neg h92, if_neg h8, if_neg h9, if_neg h10, if_neg h12,
        if_neg h13, if_neg hctl, if_neg hascii, if_neg h2b, if_pos h3b]
    have hutf : parseUtf8Seq (224 + c.toNat / 4096)
        ((128 + c.toNat / 64 % 64) :: (128 + c.toNat % 64) :: rest)
        = some (c, rest) := by
      simp only [parseUtf8Seq]
      repeat' split
      all_goals first
        | (exfalso; omega)
        | (simp only [Option.some.injEq, Prod.mk.injEq]
           exact ⟨by apply hchar; omega, trivial⟩)
    have hb34 : ¬(224 + c.toNat / 4096 = 34) := by omega
    have hb92 : ¬(224 + c.toNat / 4096 = 92) := by omega
    have hb32 : ¬(224 + c.toNat / 4096 < 32) := by omega
    rw [he]
    simp [parseStrBodyF, hb34, hb92, hb32, hutf]
  · have he : escapeChar c =
        [240 + c.toNat / 262144, 128 + c.toNat / 4096 % 64,
          128 + c.toNat / 64 % 64, 128 + c.toNat % 64] := by
      simp only [escapeChar, utf8Bytes]
      rw [if_neg h34, if_neg h92, if_neg h8, if_neg h9, if_neg h10, if_neg h12,
        if_neg h13, if_neg hctl, if_neg hascii, if_neg h2b, if_neg h3b]
    have hutf : parseUtf8Seq (240 + c.toNat / 262144)
        ((128 + c.toNat / 4096 % 64) :: (128 + c.toNat / 64 % 64) ::
          (128 + c.toNat % 64) :: rest)
        = some (c, rest) := by
      simp only [parseUtf8Seq]
      repeat' split
      all_goals first
        | (exfalso; omega)
        | (simp only [Option.some.injEq, Prod.mk.injEq]
           exact ⟨by apply hchar; omega, trivial⟩)
    have hb34 : ¬(240 + c.toNat / 262144 = 34) := by omega
    have hb92 : ¬(240 + c.toNat / 262144 = 92) := by omega
    have hb32 : ¬(240 + c.toNat / 262144 < 32) := by omega
    rw [he]
    simp [parseStrBodyF, hb34, hb92, hb32, hutf]

theorem parseStrBodyF_render (s : List Char) :
    ∀ fuel rest, s.length < fuel →
      parseStrBodyF fuel (renderChars s ++ (34 :: rest)) = some (s, rest) := by
  induction s with
  | nil =>
      intro fuel rest hf
      obtain ⟨f, rfl⟩ : ∃ f, fuel = f + 1 := ⟨fuel - 1, by omega⟩
      simp [renderChars, parseStrBodyF]
  | cons c cs ih =>
      intro fuel rest hf
      obtain ⟨f, rfl⟩ : ∃ f, fuel = f + 1 := ⟨fuel - 1, by omega⟩
      rw [show renderChars (c :: cs) = escapeChar c ++ renderChars cs from rfl,
        List.append_assoc, parseStrBodyF_escapeChar,
        ih f rest (by simp only [List.length_cons] at hf; omega)]
      rfl

theorem escapeChar_length_pos (c : Char) : 0 < (escapeChar c).length := by
  by_cases h34 : c.toNat = 34
  · simp [escapeChar, h34]
  by_cases h92 : c.toNat = 92
  · simp [escapeChar, h34, h92]
  by_cases h8 : c.toNat = 8
  · simp [escapeChar, h34, h92, h8]
  by_cases h9 : c.toNat = 9
  · simp [escapeChar, h34, h92, h8, h9]
  by_cases h10 : c.toNat = 10
  · simp [escapeChar, h34, h92, h8, h9, h10]
  by_cases h12 : c.toNat = 12
  · simp [escapeChar, h34, h92, h8, h9, h10, h12]
  by_cases h13 : c.toNat = 13
  · simp [escapeChar, h34, h92, h8, h9, h10, h12, h13]
  by_cases hctl : c.toNat < 32
  · simp [escapeChar, h34, h92, h8, h9, h10, h12, h13, hctl]
  by_cases hascii : c.toNat < 128
  · simp [escapeChar, utf8Bytes, h34, h92, h8, h9, h10, h12, h13, hctl, hascii]
  by_cases h2b : c.toNat < 2048
  · simp [escapeChar, utf8Bytes, h34, h92, h8, h9, h10, h12, h13, hctl, hascii, h2b]
  by_cases h3b : c.toNat < 65536
  · simp [escapeChar, utf8Bytes, h34, h92, h8, h9, h10, h12, h13, hctl, hascii, h2b,
      h3b]
  · simp [escapeChar, utf8Bytes, h34, h92, h8, h9, h10, h12, h13, hctl, hascii, h2b,
      h3b]

theorem renderChars_length (s : List Char) : s.length ≤ (renderChars s).length := by
  induction s with
  | nil => simp [renderChars]
  | cons c cs ih =>
      have := escapeChar_length_pos c
      simp only [renderChars, List.length_append, List.length_cons]
      omega

theorem parseStrBody_render (s : List Char) (rest : List Nat) :
    parseStrBody (renderChars s ++ (34 :: rest)) = some (s, rest) := by
  rw [parseStrBody]
  apply parseStrBodyF_render
  have := renderChars_length s
  simp only [List.length_append, List.length_cons]
  omega

theorem parseJString_jstr (s : List Char) (rest : List Nat) :
    parseJString (jstr s ++ rest) = some (s, rest) := by
  rw [show jstr s ++ rest = 34 :: (renderChars s ++ (34 :: rest)) by simp [jstr]]
  simp only [parseJString, if_pos]
  exact parseStrBody_render s rest

theorem parseDigits_cons_digit (b : Nat) (hb : 48 ≤ b ∧ b ≤ 57) (l : List Nat)
    (acc : Nat) :
    parseDigits (b :: l) acc = parseDigits l (acc * 10 + (b - 48)) := by
  simp [parseDigits, hb]

theorem parseDigits_stop (b : Nat) (hb : ¬(48 ≤ b ∧ b ≤ 57)) (l : List Nat)
    (acc : Nat) :
    parseDigits (b :: l) acc = (acc, b :: l) := by
  simp [parseDigits, hb]

theorem natBytes_digits (n : Nat) : ∀ b ∈ natBytes n, 48 ≤ b ∧ b ≤ 57 := by
  induction n using Nat.strong_induction_on with
  | _ n ih =>
    intro b hb
    rw [natBytes] at hb
    split at hb
    · rename_i h
      simp only [List.mem_singleton] at hb
      omega
    · rename_i h
      simp only [List.mem_append, List.mem_singleton] at hb
      rcases hb with hb | rfl
      · exact ih (n / 10) (Nat.div_lt_self (by omega) (by omega)) b hb
      · omega

theorem natBytes_ne_nil (n : Nat) : natBytes n ≠ [] := by
  rw [natBytes]
  split <;> simp

theorem parseDigits_natBytes (n : Nat) :
    ∀ acc rest, parseDigits (natBytes n ++ rest) acc =
      parseDigits rest (acc * 10 ^ (natBytes n).length + n) := by
  induction n using Nat.strong_induction_on with
  | _ n ih =>
    intro acc rest
    by_cases h : n < 10
    · rw [natBytes, dif_pos h, List.singleton_append,
        parseDigits_cons_digit _ (by omega)]
      have h1 : acc * 10 + (48 + n - 48) = acc * 10 ^ [48 + n].length + n := by
        simp only [List.length_singleton, pow_one]
        omega
      rw [h1]
    · rw [natBytes, dif_neg h, List.append_assoc,
        ih (n / 10) (Nat.div_lt_self (by omega) (by omega)),
        List.singleton_append, parseDigits_cons_digit _ (by omega)]
      congr 1
      have hlen : (natBytes (n / 10) ++ [48 + n % 10]).length
          = (natBytes (n / 10)).length + 1 := by simp
      rw [hlen, pow_succ]
      have hmod : 48 + n % 10 - 48 = n % 10 := by omega
      rw [hmod, Nat.add_mul]
      have hdm : n / 10 * 10 + n % 10 = n := by omega
      have hflat : acc * (10 ^ (natBytes (n / 10)).length * 10)
          = acc * 10 ^ (natBytes (n / 10)).length * 10 := by ring
      omega

theorem parseNat_natBytes (n r : Nat) (rs : List Nat) (hr : ¬(48 ≤ r ∧ r ≤ 57)) :
    parseNat (natBytes n ++ (r :: rs)) = some (n, r :: rs) := by
  obtain ⟨b, bs, hshape⟩ : ∃ b bs, natBytes n = b :: bs := by
    cases hnb : natBytes n with
    | nil => exact absurd hnb (natBytes_ne_nil n)
    | cons b bs => exact ⟨b, bs, rfl⟩
  have hbd : 48 ≤ b ∧ b ≤ 57 :=
    natBytes_digits n b (hshape ▸ List.mem_cons_self b bs)
  have h0 : parseDigits ((b :: bs) ++ (r :: rs)) 0 = (n, r :: rs) := by
    rw [← hshape, parseDigits_natBytes n 0 (r :: rs), parseDigits_stop r hr]
    simp
  rw [List.cons_append, parseDigits_cons_digit b hbd] at h0
  rw [hshape, List.cons_append]
  simp only [parseNat, if_pos hbd]
  rw [show b - 48 = 0 * 10 + (b - 48) by omega, h0]

theorem parseNat_natBytes_brace (n : Nat) (rs : List Nat) :
    parseNat (natBytes n ++ (125 :: rs)) = some (n, 125 :: rs) :=
  parseNat_natBytes n 125 rs (by omega)

theorem parseNat_natBytes_comma (n : Nat) (rs : List Nat) :
    parseNat (natBytes n ++ (44 :: rs)) = some (n, 44 :: rs) :=
  parseNat_natBytes n 44 rs (by omega)

theorem dropLit_nil (bs : List Nat) : dropLit [] bs = some bs := rfl

theorem dropLit_cons (p : Nat) (ps bs : List Nat) :
    dropLit (p :: ps) (p :: bs) = dropLit ps bs := by
  simp [dropLit]

theorem dropLit_append (l rest : List Nat) : dropLit l (l ++ rest) = some rest := by
  induction l with
  | nil => rfl
  | cons p ps ih => rw [List.cons_append, dropLit_cons]; exact ih

theorem dropLit_split (a b bs : List Nat) :
    dropLit (a ++ b) bs = (dropLit a bs).bind (dropLit b) := by
  induction a generalizing bs with
  | nil => simp [dropLit_nil]
  | cons p ps ih =>
      cases bs with
      | nil => simp [dropLit]
      | cons x xs =>
          simp only [List.cons_append, dropLit]
          by_cases hx : x = p
          · simp only [if_pos hx]
            exact ih xs
          · simp [if_neg hx]

theorem statusOfName_success : statusOfName "Success".data = some .Success := rfl

theorem statusOfName_failed : statusOfName "Failed".data = some .Failed := rfl

theorem statusOfName_ignored : statusOfName "Ignored".data = some .Ignored := rfl

theorem parseEvent_encodeEvent (e : TestEvent) (rest : List Nat) :
    parseEvent (encodeEvent e ++ rest) = some (e, rest) := by
  cases e with
  | End count =>
      simp [encodeEvent, parseEvent, parseEventContent, dropLit_cons, dropLit_nil,
        dropLit_split, dropLit_append, parseJString_jstr, parseNat_natBytes_brace,
        List.append_assoc, Option.bind]
  | BeginGroup name count =>
      have hne1 : "BeginGroup".data ≠ "End".data := by decide
      simp [encodeEvent, parseEvent, parseEventContent, dropLit_cons, dropLit_nil,
        dropLit_split, dropLit_append, parseJString_jstr, parseNat_natBytes_brace,
        List.append_assoc, Option.bind, hne1]
  | EndGroup name =>
      have hne1 : "EndGroup".data ≠ "End".data := by decide
      have hne2 : "EndGroup".data ≠ "BeginGroup".data := by decide
      simp [encodeEvent, parseEvent, parseEventContent, dropLit_cons, dropLit_nil,
        dropLit_split, dropLit_append, parseJString_jstr,
        List.append_assoc, Option.bind, hne1, hne2]
  | Result r =>
      obtain ⟨name, st, fail⟩ := r
      have hne1 : "Result".data ≠ "End".data := by decide
      have hne2 : "Result".data ≠ "BeginGroup".data := by decide
      have hne3 : "Result".data ≠ "EndGroup".data := by decide
      cases st <;>
        simp [encodeEvent, encodeStatus, parseEvent, parseEventContent, dropLit_cons,
          dropLit_nil, dropLit_split, dropLit_append, parseJString_jstr, statusOfName,
          List.append_assoc, Option.bind, hne1, hne2, hne3]

theorem leBytes8_length (n : Nat) : (leBytes8 n).length = 8 := rfl

theorem leValue_leBytes8 (n : Nat) (h : n < 2 ^ 64) : leValue (leBytes8 n) = n := by
  simp only [leBytes8, leValue]
  omega

/-- Claim C3: for every `TestEvent` (`End`, `BeginGroup`, `EndGroup`,
`Result`, with arbitrary unicode test names and arbitrary — including
empty — failure text), encoding it as the stream reporter does (8-byte
little-endian length, then that many bytes of compact JSON) and decoding one
frame as the receiving side does (read exactly 8 length bytes, then exactly
`length` payload bytes, parse the JSON) yields the original event and leaves
the rest of the stream untouched. -/
theorem stream_frame_roundtrip (e : TestEvent) (extra : List Nat)
    (h : (encodeEvent e).length < 2 ^ 64) :
    decodeFrame (encodeFrame e ++ extra) = some (e, extra) := by
  rw [decodeFrame, encodeFrame, List.append_assoc]
  have hlen8 : (leBytes8 (encodeEvent e).length).length = 8 := leBytes8_length _
  rw [if_neg (by simp [List.length_append, hlen8])]
  rw [List.take_left' hlen8, List.drop_left' hlen8, leValue_leBytes8 _ h]
  rw [if_neg (by simp [List.length_append])]
  rw [List.take_left' rfl, List.drop_left' rfl]
  have hp : parseEvent (encodeEvent e) = some (e, []) := by
    have := parseEvent_encodeEvent e []
    rwa [List.append_nil] at this
  rw [hp]

/-- Witness: the round trip at a concrete `Result` event with a non-ASCII
name and empty failure text. -/
theorem stream_frame_roundtrip_witness :
    decodeFrame (encodeFrame sampleUnicodeEvent ++ []) =
      some (sampleUnicodeEvent, []) :=
  stream_frame_roundtrip sampleUnicodeEvent [] (by decide)

end WinitNext
